import Mathlib

/-!
Shallow embedding of the deterministic core of `hybrid_extract.ts`:
sentence segmentation, regex candidate detection, the rules-only
candidate-to-record mapping, and the dedupe/merge step.

Strings are modelled as Lean `String` (a wrapper around `List Char`);
JavaScript regular-expression matching is modelled by a priority-ordered
backtracking matcher (`Mtch`), where the head of the result list is the
match the JS engine would produce (greedy quantifiers try longer first,
lazy quantifiers shorter first, alternation tries the left branch first).
-/

/-- Character predicates mirroring the JS regex character classes. -/
def isJsSpace (c : Char) : Bool :=
  c = ' ' || c = '\t' || c = '\n' || c = '\r' || c = '\x0b' || c = '\x0c' || c = ' '

def isWordCh (c : Char) : Bool :=
  ('a' ≤ c && c ≤ 'z') || ('A' ≤ c && c ≤ 'Z') || ('0' ≤ c && c ≤ '9') || c = '_'

def isAsciiDigit (c : Char) : Bool := '0' ≤ c && c ≤ '9'

def isAsciiAlpha (c : Char) : Bool := ('a' ≤ c && c ≤ 'z') || ('A' ≤ c && c ≤ 'Z')

def isAsciiAlphanum (c : Char) : Bool := isAsciiAlpha c || isAsciiDigit c

/-- Lower-case an ASCII character (models JS case-insensitive matching). -/
def lowCh (c : Char) : Char :=
  if 'A' ≤ c && c ≤ 'Z' then Char.ofNat (c.toNat + 32) else c

/-- A matcher: given a start position in the subject, the list of possible
end positions in backtracking-priority order (head = what JS picks). -/
def Mtch : Type := Nat → List Nat

def mEps : Mtch := fun i => [i]

def mSeq (a b : Mtch) : Mtch := fun i => (a i).flatMap b

def mAlt (a b : Mtch) : Mtch := fun i => a i ++ b i

def mCat (ms : List Mtch) : Mtch := ms.foldr mSeq mEps

/-- Match one character satisfying `p`. -/
def mPred (s : List Char) (p : Char → Bool) : Mtch := fun i =>
  match s.get? i with
  | some c => if p c then [i + 1] else []
  | none => []

/-- Greedy `?`. -/
def mOpt (a : Mtch) : Mtch := fun i => a i ++ [i]

/-- Greedy `*` (fuel-bounded; fuel ≥ subject length suffices when the body
consumes at least one character per iteration). -/
def mStar (fuel : Nat) (a : Mtch) : Mtch :=
  match fuel with
  | 0 => fun i => [i]
  | f + 1 => fun i => (a i).flatMap (mStar f a) ++ [i]

/-- Greedy `+`. -/
def mPlus (fuel : Nat) (a : Mtch) : Mtch := mSeq a (mStar fuel a)

/-- Lazy `*?`. -/
def mLazyStar (fuel : Nat) (a : Mtch) : Mtch :=
  match fuel with
  | 0 => fun i => [i]
  | f + 1 => fun i => i :: (a i).flatMap (mLazyStar f a)

/-- Lazy `+?`. -/
def mLazyPlus (fuel : Nat) (a : Mtch) : Mtch := mSeq a (mLazyStar fuel a)

/-- Exactly `n` repetitions. -/
def mRep (n : Nat) (a : Mtch) : Mtch :=
  match n with
  | 0 => mEps
  | k + 1 => mSeq a (mRep k a)

/-- Case-sensitive literal. -/
def mStrCS (s : List Char) (lit : String) : Mtch :=
  mCat (lit.data.map (fun ch => mPred s (fun c => c = ch)))

/-- Case-insensitive literal (the `i` flag). -/
def mStrCI (s : List Char) (lit : String) : Mtch :=
  mCat (lit.data.map (fun ch => mPred s (fun c => lowCh c = lowCh ch)))

def wordAt (s : List Char) (i : Nat) : Bool :=
  match s.get? i with
  | some c => isWordCh c
  | none => false

/-- The `\b` word-boundary assertion. -/
def mBound (s : List Char) : Mtch := fun i =>
  let before := if i = 0 then false else wordAt s (i - 1)
  if before != wordAt s i then [i] else []

/-- First match (JS choice) starting exactly at `i`. -/
def firstEndAt (m : Mtch) (i : Nat) : Option Nat := (m i).head?

/-- All global (`g` flag) matches as (start, end) pairs: leftmost scan,
continuing after each match. -/
def scanAll (m : Mtch) (len : Nat) : Nat → Nat → List (Nat × Nat)
  | 0, _ => []
  | fuel + 1, i =>
    if i ≤ len then
      match firstEndAt m i with
      | some e => (i, e) :: scanAll m len fuel (if i < e then e else i + 1)
      | none => scanAll m len fuel (i + 1)
    else []

def matchStrs (s : List Char) (m : Mtch) : List String :=
  (scanAll m s.length (s.length + 1) 0).map
    (fun p => String.mk ((s.drop p.1).take (p.2 - p.1)))

/-! The nine patterns of `PATTERNS` in `hybrid_extract.ts`. -/

/-- Circular-code pattern (flags: g): literal `SEBI/HO/`, then one or more
characters drawn from A-Z, 0-9, slash, hyphen, then `/P?/CIR/`
(an optional `P` between two mandatory slashes), then 4 digits, `/`, digits. -/
def circularCodeM (s : List Char) : Mtch :=
  let F := s.length + 1
  mCat [mStrCS s "SEBI/HO/",
        mPlus F (mPred s (fun c => ('A' ≤ c && c ≤ 'Z') || isAsciiDigit c || c = '/' || c = '-')),
        mPred s (fun c => c = '/'),
        mOpt (mPred s (fun c => c = 'P')),
        mStrCS s "/CIR/",
        mRep 4 (mPred s isAsciiDigit),
        mPred s (fun c => c = '/'),
        mPlus F (mPred s isAsciiDigit)]

/-- `\bMaster Circular (?:for|on)\s+[^.,;\n]+?(?:dated\s+[A-Z][a-z]+\s+\d{1,2},\s*\d{4})?` (gi). -/
def masterCircularM (s : List Char) : Mtch :=
  let F := s.length + 1
  mCat [mBound s,
        mStrCI s "Master Circular ",
        mAlt (mStrCI s "for") (mStrCI s "on"),
        mPlus F (mPred s isJsSpace),
        mLazyPlus F (mPred s (fun c => !(c = '.' || c = ',' || c = ';' || c = '\n'))),
        mOpt (mCat [mStrCI s "dated",
                    mPlus F (mPred s isJsSpace),
                    mPred s isAsciiAlpha,
                    mPlus F (mPred s isAsciiAlpha),
                    mPlus F (mPred s isJsSpace),
                    mPred s isAsciiDigit,
                    mOpt (mPred s isAsciiDigit),
                    mPred s (fun c => c = ','),
                    mStar F (mPred s isJsSpace),
                    mRep 4 (mPred s isAsciiDigit)])]

/-- `SEBI\s*\([^)]+\)\s*Regulations,\s*\d{4}` (gi). -/
def regulationSetM (s : List Char) : Mtch :=
  let F := s.length + 1
  mCat [mStrCI s "SEBI",
        mStar F (mPred s isJsSpace),
        mPred s (fun c => c = '('),
        mPlus F (mPred s (fun c => !(c = ')'))),
        mPred s (fun c => c = ')'),
        mStar F (mPred s isJsSpace),
        mStrCI s "Regulations,",
        mStar F (mPred s isJsSpace),
        mRep 4 (mPred s isAsciiDigit)]

/-- `\bRegulation(?:s)?\s+\d+(?:\([0-9A-Za-z]+\))*` (g). -/
def regulationM (s : List Char) : Mtch :=
  let F := s.length + 1
  mCat [mBound s,
        mStrCS s "Regulation",
        mOpt (mPred s (fun c => c = 's')),
        mPlus F (mPred s isJsSpace),
        mPlus F (mPred s isAsciiDigit),
        mStar F (mCat [mPred s (fun c => c = '('),
                       mPlus F (mPred s isAsciiAlphanum),
                       mPred s (fun c => c = ')')])]

/-- `\bSection\s+\d+(?:\(\d+\))*\s+of the\s+[^.,\n]+?Act,\s*\d{4}` (gi). -/
def actSectionM (s : List Char) : Mtch :=
  let F := s.length + 1
  mCat [mBound s,
        mStrCI s "Section",
        mPlus F (mPred s isJsSpace),
        mPlus F (mPred s isAsciiDigit),
        mStar F (mCat [mPred s (fun c => c = '('),
                       mPlus F (mPred s isAsciiDigit),
                       mPred s (fun c => c = ')')]),
        mPlus F (mPred s isJsSpace),
        mStrCI s "of the",
        mPlus F (mPred s isJsSpace),
        mLazyPlus F (mPred s (fun c => !(c = '.' || c = ',' || c = '\n'))),
        mStrCI s "Act,",
        mStar F (mPred s isJsSpace),
        mRep 4 (mPred s isAsciiDigit)]

/-- `\bSchedule\s+[IVXLC]+\b` (g). -/
def scheduleM (s : List Char) : Mtch :=
  let F := s.length + 1
  mCat [mBound s,
        mStrCS s "Schedule",
        mPlus F (mPred s isJsSpace),
        mPlus F (mPred s (fun c => c = 'I' || c = 'V' || c = 'X' || c = 'L' || c = 'C')),
        mBound s]

/-- `\bChapter\s+\d+\b` (g). -/
def chapterM (s : List Char) : Mtch :=
  let F := s.length + 1
  mCat [mBound s,
        mStrCS s "Chapter",
        mPlus F (mPred s isJsSpace),
        mPlus F (mPred s isAsciiDigit),
        mBound s]

/-- `\bClause\s+\d+(?:\.\d+)*\b` (g). -/
def clauseM (s : List Char) : Mtch :=
  let F := s.length + 1
  mCat [mBound s,
        mStrCS s "Clause",
        mPlus F (mPred s isJsSpace),
        mPlus F (mPred s isAsciiDigit),
        mStar F (mCat [mPred s (fun c => c = '.'),
                       mPlus F (mPred s isAsciiDigit)]),
        mBound s]

/-- `\bhttps?:\/\/\S+` (gi). -/
def urlM (s : List Char) : Mtch :=
  let F := s.length + 1
  mCat [mBound s,
        mStrCI s "http",
        mOpt (mPred s (fun c => lowCh c = 's')),
        mStrCI s "://",
        mPlus F (mPred s (fun c => !isJsSpace c))]

/-! Sentence segmentation: the JS split on the regular expression
lookbehind [.?!;], then one-or-more whitespace, then lookahead
on an uppercase letter, opening parenthesis or a quote character,
as in `splitSentences`. -/

/-- Sentence-terminator characters (the lookbehind class). -/
def isTermCh (c : Char) : Bool := c = '.' || c = '?' || c = '!' || c = ';'

/-- Characters that may open the next sentence (the lookahead class):
uppercase A-Z, an opening parenthesis, a left curly quote, a double quote,
or an apostrophe. -/
def isOpenCh (c : Char) : Bool :=
  ('A' ≤ c && c ≤ 'Z') || c = '(' || c = '“' || c = '"' || c = '\''

def prevTerm : Option Char → Bool
  | none => false
  | some p => isTermCh p

def dropWs (l : List Char) : List Char := l.dropWhile isJsSpace

/-- Does a separator (the split regex) match at the current position,
given the previous character? -/
def sepHere (prev : Option Char) (l : List Char) : Bool :=
  prevTerm prev &&
  (match l with
   | c :: _ => isJsSpace c
   | [] => false) &&
  (match (dropWs l).head? with
   | some d => isOpenCh d
   | none => false)

theorem dropWhile_length_le {α : Type} (p : α → Bool) (l : List α) :
    (l.dropWhile p).length ≤ l.length := by
  induction l with
  | nil => simp
  | cons a l ih =>
    by_cases h : p a
    · simp only [List.dropWhile_cons_of_pos h]
      exact Nat.le_succ_of_le ih
    · simp [List.dropWhile_cons_of_neg h]

/-- The raw chunks produced by the JS `split` call: scan left to right,
cutting at each separator occurrence and discarding the matched whitespace.
Fuel-bounded so the kernel can evaluate it; any fuel ≥ `rest.length`
gives the untruncated behavior (see `splitCore_fuel_ge`). -/
def splitCore (fuel : Nat) (prev : Option Char) (cur : List Char)
    (rest : List Char) : List (List Char) :=
  match fuel with
  | 0 => [cur.reverse ++ rest]
  | f + 1 =>
    match rest with
    | [] => [cur.reverse]
    | c :: rs =>
      if sepHere prev (c :: rs) then
        cur.reverse :: splitCore f none [] (dropWs (c :: rs))
      else
        splitCore f (some c) (c :: cur) rs

/-- Whether the split regex matches anywhere in `rest`, given the character
preceding it. -/
def hasSplitPoint : Option Char → List Char → Bool
  | _, [] => false
  | prev, c :: rs => sepHere prev (c :: rs) || hasSplitPoint (some c) rs

/-- JS `String.prototype.trim`. -/
def jsTrimChars (l : List Char) : List Char :=
  ((l.dropWhile isJsSpace).reverse.dropWhile isJsSpace).reverse

def jsTrim (s : String) : String := String.mk (jsTrimChars s.data)

/-- `splitSentences` from the source: split, trim each chunk, drop empty
chunks, and fall back to the single trimmed input when nothing remains. -/
def splitSentences (text : String) : List String :=
  let chunks :=
    ((splitCore text.data.length none [] text.data).map
        (fun l => String.mk (jsTrimChars l))).filter (fun t => t != "")
  if chunks.isEmpty then [jsTrim text] else chunks

/-! Data model: candidates and reference records. -/

inductive CandidateKind
  | circularCode
  | masterCircular
  | regulationSet
  | regulation
  | actSection
  | schedule
  | chapter
  | clause
  | url
deriving DecidableEq, Repr

inductive RefType
  | Circular
  | MasterCircular
  | Regulation
  | ActSection
  | Schedule
  | Chapter
  | Clause
  | StockExchangeCircular
  | DepositoryCircular
  | URL
  | Other
deriving DecidableEq, Repr

/-- The string form of a `RefType`, as used in the JS merge key. -/
def RefType.str : RefType → String
  | .Circular => "Circular"
  | .MasterCircular => "Master Circular"
  | .Regulation => "Regulation"
  | .ActSection => "Act Section"
  | .Schedule => "Schedule"
  | .Chapter => "Chapter"
  | .Clause => "Clause"
  | .StockExchangeCircular => "Stock Exchange Circular"
  | .DepositoryCircular => "Depository Circular"
  | .URL => "URL"
  | .Other => "Other"

/-- The string form of a `CandidateKind`, as used in the candidate dedup key. -/
def CandidateKind.str : CandidateKind → String
  | .circularCode => "circularCode"
  | .masterCircular => "masterCircular"
  | .regulationSet => "regulationSet"
  | .regulation => "regulation"
  | .actSection => "actSection"
  | .schedule => "schedule"
  | .chapter => "chapter"
  | .clause => "clause"
  | .url => "url"

structure Candidate where
  page : Nat
  sentence : String
  «match» : String
  kind : CandidateKind
  url : Option String
deriving DecidableEq, Repr

structure ReferenceItem where
  type : RefType
  title : Option String
  identifier : Option String
  url : Option String
  anchorPageHint : Option Int
  pages : List Nat
  snippets : List String
  confidence : ℚ
deriving DecidableEq, Repr

structure PageRecord where
  page : Nat
  text : String
  urls : List String
deriving DecidableEq, Repr

/-! Candidate detection (`findCandidates`). -/

/-- Dispatch a kind to its compiled pattern. -/
def patternOf (k : CandidateKind) (s : List Char) : Mtch :=
  match k with
  | .circularCode => circularCodeM s
  | .masterCircular => masterCircularM s
  | .regulationSet => regulationSetM s
  | .regulation => regulationM s
  | .actSection => actSectionM s
  | .schedule => scheduleM s
  | .chapter => chapterM s
  | .clause => clauseM s
  | .url => urlM s

/-- All global matches of a pattern in a string (what `s.match(rx)` returns,
with `[]` in place of `null`). -/
def patternMatches (k : CandidateKind) (s : String) : List String :=
  matchStrs s.data (patternOf k s.data)

/-- Insertion order of the `PATTERNS` object literal, which is the
`Object.entries` iteration order. -/
def PATTERN_ORDER : List CandidateKind :=
  [.circularCode, .masterCircular, .regulationSet, .regulation,
   .actSection, .schedule, .chapter, .clause, .url]

/-- Candidates emitted for one sentence: the first URL token found in the
sentence is shared by all candidates of the sentence; every pattern is run
independently and one candidate is pushed per match. -/
def sentenceCandidates (pg : Nat) (s : String) : List Candidate :=
  let urlInSentence := (patternMatches .url s).head?
  PATTERN_ORDER.flatMap (fun k =>
    (patternMatches k s).map (fun m =>
      { page := pg, sentence := jsTrim s, «match» := jsTrim m, kind := k,
        url := urlInSentence }))

/-- Candidates emitted for one page: sentence candidates plus one
`url`-kind candidate (empty sentence) per page-level link annotation. -/
def pageCandidates (p : PageRecord) : List Candidate :=
  (splitSentences p.text).flatMap (sentenceCandidates p.page) ++
    p.urls.map (fun u =>
      { page := p.page, sentence := "", «match» := u, kind := .url, url := some u })

/-- The candidate dedup key, built exactly like the JS template string. -/
def candKey (c : Candidate) : String :=
  toString c.page ++ "|" ++ c.kind.str ++ "|" ++ c.«match» ++ "|" ++ c.sentence

/-- Keep the first candidate for each key (a JS `Map` keyed by `candKey`,
read back in insertion order). -/
def dedupCandsAux (seen : List String) : List Candidate → List Candidate
  | [] => []
  | c :: cs =>
    if candKey c ∈ seen then dedupCandsAux seen cs
    else c :: dedupCandsAux (candKey c :: seen) cs

def findCandidates (pages : List PageRecord) : List Candidate :=
  dedupCandsAux [] (pages.flatMap pageCandidates)

/-! Rules-only normalization (the `--no-llm` branch of `main`). -/

/-- The fixed kind-to-type lookup of the rules-only branch. -/
def kindToType : CandidateKind → RefType
  | .masterCircular => .MasterCircular
  | .circularCode => .Circular
  | .regulation => .Regulation
  | .regulationSet => .Regulation
  | .actSection => .ActSection
  | .schedule => .Schedule
  | .chapter => .Chapter
  | .clause => .Clause
  | .url => .URL

/-- Map one candidate to a minimal reference record at confidence 0.4. -/
def ruleItem (c : Candidate) : ReferenceItem :=
  { type := kindToType c.kind
    title := none
    identifier :=
      if c.kind = .circularCode || c.kind = .regulation then some c.«match» else none
    url := if c.kind = .url then some c.«match» else c.url
    anchorPageHint := none
    pages := [c.page]
    snippets := [if c.sentence = "" then c.«match» else c.sentence]
    confidence := 2 / 5 }

/-! Dedupe/merge (`dedupe`). -/

/-- JS `toLowerCase` restricted to ASCII. -/
def lowerStr (s : String) : String := String.mk (s.data.map lowCh)

/-- The merge key: type, lower-cased identifier-or-empty, lower-cased
title-or-empty, joined by pipes. -/
def refKey (r : ReferenceItem) : String :=
  r.type.str ++ "|" ++ lowerStr (r.identifier.getD "") ++ "|" ++
    lowerStr (r.title.getD "")

/-- Keep-first deduplication (JS `Array.from(new Set(xs))`). -/
def dedupFirstAux {α : Type} [DecidableEq α] (seen : List α) : List α → List α
  | [] => []
  | x :: xs =>
    if x ∈ seen then dedupFirstAux seen xs
    else x :: dedupFirstAux (x :: seen) xs

def dedupFirst {α : Type} [DecidableEq α] (l : List α) : List α := dedupFirstAux [] l

/-- Ascending numeric sort (JS `.sort((a, b) => a - b)`). -/
def sortNat (l : List Nat) : List Nat := List.insertionSort (· ≤ ·) l

/-- Normalization applied to the first record stored under a key:
pages deduplicated and sorted, snippets deduplicated. -/
def normFirst (r : ReferenceItem) : ReferenceItem :=
  { r with
    pages := sortNat (dedupFirst r.pages)
    snippets := dedupFirst r.snippets }

/-- JS truthiness of a nullable string: `null` and `""` are falsy. -/
def jsStrFalsy : Option String → Bool
  | none => true
  | some s => s == ""

/-- JS truthiness of a nullable integer: `null` and `0` are falsy. -/
def jsIntFalsy : Option Int → Bool
  | none => true
  | some n => n == 0

/-- One merge step: the stored record `found` absorbs the incoming `r`. -/
def mergeInto (found r : ReferenceItem) : ReferenceItem :=
  { found with
    pages := sortNat (dedupFirst (found.pages ++ r.pages))
    snippets := dedupFirst (found.snippets ++ r.snippets)
    confidence := max found.confidence r.confidence
    url :=
      if jsStrFalsy found.url && !jsStrFalsy r.url then r.url else found.url
    anchorPageHint :=
      if jsIntFalsy found.anchorPageHint && !jsIntFalsy r.anchorPageHint then
        r.anchorPageHint
      else found.anchorPageHint }

/-- Association-list lookup (JS `map.get`). -/
def findVal (k : String) : List (String × ReferenceItem) → Option ReferenceItem
  | [] => none
  | e :: es => if e.1 = k then some e.2 else findVal k es

/-- In-place update of an existing key (JS `map.set` on a present key keeps
its position in insertion order). -/
def updVal (k : String) (v : ReferenceItem) :
    List (String × ReferenceItem) → List (String × ReferenceItem)
  | [] => []
  | e :: es => if e.1 = k then (k, v) :: es else e :: updVal k v es

def dedupeAux (acc : List (String × ReferenceItem)) :
    List ReferenceItem → List (String × ReferenceItem)
  | [] => acc
  | r :: rs =>
    match findVal (refKey r) acc with
    | none => dedupeAux (acc ++ [(refKey r, normFirst r)]) rs
    | some found => dedupeAux (updVal (refKey r) (mergeInto found r) acc) rs

def dedupe (items : List ReferenceItem) : List ReferenceItem :=
  (dedupeAux [] items).map Prod.snd

/-- The deterministic part of `main` in rules-only mode: returns the process
exit code and the merged reference list written to the JSON output. -/
def mainRulesOnly (pages : List PageRecord) : Nat × List ReferenceItem :=
  let candidates := findCandidates pages
  if candidates.isEmpty then (0, [])
  else (0, dedupe (candidates.map ruleItem))

/-! Claim theorems. -/

/-- The one-page document of the end-to-end scenario. -/
def c1Sentence : String :=
  "Refer to SEBI/HO/MRD/DSA/CIR/2023/45 dated Jan 1, 2023 and Regulation 9(1)."

/-- C1: the spec requires the rules-only pipeline, on the one-page document
containing `c1Sentence`, to produce two records (a Circular and a
Regulation). The code's circular-code pattern demands either `/P/CIR/` or
a double slash `//CIR/` before the year, so `SEBI/HO/MRD/DSA/CIR/2023/45`
is not matched and the pipeline produces only the single Regulation record
with identifier "Regulation 9(1)", confidence 0.4 and pages [1]; no record
of type Circular appears. This theorem evaluates the embedded code at the
spec's own input, exhibiting the divergence. -/
theorem c1_rules_only_on_spec_sentence :
    mainRulesOnly [⟨1, c1Sentence, []⟩] =
      (0, [{ type := .Regulation, title := none,
             identifier := some "Regulation 9(1)", url := none,
             anchorPageHint := none, pages := [1],
             snippets := [c1Sentence], confidence := 2 / 5 }]) ∧
    ∀ r ∈ (mainRulesOnly [⟨1, c1Sentence, []⟩]).2, r.type ≠ RefType.Circular := by
  constructor
  · rfl
  · decide

/-- The sentence of the pattern-match scenario for the regulation pattern. -/
def c2Sentence : String := "See Regulation 12(3) and 12(3A) of the Regulations."

/-- C2 counterexample: on `c2Sentence` the regulation pattern does not yield
two match strings, and in particular never yields "Regulation 12(3A)":
the substring "12(3A)" carries no literal "Regulation" prefix, which the
pattern requires. -/
theorem c2_counterexample :
    (patternMatches .regulation c2Sentence).length ≠ 2 ∧
    "Regulation 12(3A)" ∉ patternMatches .regulation c2Sentence := by
  constructor
  · decide
  · decide

/-- C2 amended: on `c2Sentence` the regulation pattern yields exactly the one
match string "Regulation 12(3)", and candidate detection accordingly emits
exactly one regulation-kind candidate for that sentence (splitting compound
citations such as "and 12(3A)" is delegated to the LLM normalizer, not the
rule pass). -/
theorem c2_regulation_single_match :
    patternMatches .regulation c2Sentence = ["Regulation 12(3)"] ∧
    ((sentenceCandidates 1 c2Sentence).filter
        (fun c => c.kind == CandidateKind.regulation)).map (fun c => c.«match») =
      ["Regulation 12(3)"] := by
  constructor
  · rfl
  · rfl

/-- When no split point occurs, the scan never cuts: the single chunk is the
whole remaining input (prefixed by the accumulator), for every fuel. -/
theorem splitCore_no_split (fuel : Nat) (prev : Option Char) (cur rest : List Char)
    (h : hasSplitPoint prev rest = false) :
    splitCore fuel prev cur rest = [cur.reverse ++ rest] := by
  induction fuel generalizing prev cur rest with
  | zero => rfl
  | succ f ih =>
    cases rest with
    | nil => simp [splitCore]
    | cons c rs =>
      simp only [hasSplitPoint, Bool.or_eq_false_iff] at h
      simp only [splitCore, h.1, Bool.false_eq_true, if_false]
      rw [ih (some c) (c :: cur) rs h.2]
      simp

/-- C7: the sentence segmenter never returns an empty list, and on any input
with no split point (no terminator-whitespace-opener occurrence) it returns
exactly the one-element list holding the trimmed input. -/
theorem c7_segmenter_total (text : String) :
    splitSentences text ≠ [] ∧
    (hasSplitPoint none text.data = false →
      splitSentences text = [jsTrim text]) := by
  constructor
  · show (if _ then _ else _) ≠ []
    split
    · simp
    · rename_i hne
      intro hnil
      rw [hnil] at hne
      simp at hne
  · intro h
    show (if _ then _ else _) = _
    rw [splitCore_no_split _ _ _ _ h]
    by_cases he : String.mk (jsTrimChars text.data) = ""
    · simp [he, jsTrim]
    · simp [he, jsTrim]

/-- Witness for C7 at a concrete split-point-free input. -/
theorem c7_witness :
    splitSentences "Hello world" ≠ [] ∧
    splitSentences "Hello world" = [jsTrim "Hello world"] :=
  ⟨(c7_segmenter_total "Hello world").1,
   (c7_segmenter_total "Hello world").2 (by decide)⟩

/-- C8: if rule-based detection finds no candidates, the run is a success
(exit code 0) with an empty reference list written out. -/
theorem c8_empty_candidates_success (pages : List PageRecord)
    (h : findCandidates pages = []) :
    mainRulesOnly pages = (0, []) := by
  simp [mainRulesOnly, h]

/-- Witness for C8: a one-page document whose text matches no pattern. -/
theorem c8_witness :
    findCandidates [⟨1, "", []⟩] = [] ∧
    mainRulesOnly [⟨1, "", []⟩] = (0, []) :=
  ⟨by decide, c8_empty_candidates_success _ (by decide)⟩

/-- Every candidate surviving dedup has a key outside `seen`. -/
theorem dedupCandsAux_notin_seen (seen : List String) (l : List Candidate) :
    ∀ c ∈ dedupCandsAux seen l, candKey c ∉ seen := by
  induction l generalizing seen with
  | nil => simp [dedupCandsAux]
  | cons a l ih =>
    intro c hc
    simp only [dedupCandsAux] at hc
    by_cases h : candKey a ∈ seen
    · rw [if_pos h] at hc
      exact ih seen c hc
    · rw [if_neg h] at hc
      rcases List.mem_cons.mp hc with rfl | hmem
      · exact h
      · intro hs
        exact ih (candKey a :: seen) c hmem (List.mem_cons_of_mem _ hs)

/-- Deduplicated candidates have pairwise distinct keys. -/
theorem dedupCandsAux_pairwise (seen : List String) (l : List Candidate) :
    (dedupCandsAux seen l).Pairwise (fun a b => candKey a ≠ candKey b) := by
  induction l generalizing seen with
  | nil => simp [dedupCandsAux]
  | cons a l ih =>
    simp only [dedupCandsAux]
    by_cases h : candKey a ∈ seen
    · rw [if_pos h]
      exact ih seen
    · rw [if_neg h]
      refine List.Pairwise.cons ?_ (ih _)
      intro b hb he
      exact dedupCandsAux_notin_seen _ _ b hb (he ▸ List.mem_cons_self _ _)

/-- C9: the candidate detector's output never contains two distinct
candidates agreeing on all of (page, kind, match, sentence). -/
theorem c9_candidates_quadruple_distinct (pages : List PageRecord) :
    (findCandidates pages).Pairwise (fun a b =>
      ¬(a.page = b.page ∧ a.kind = b.kind ∧ a.«match» = b.«match» ∧
        a.sentence = b.sentence)) := by
  refine (dedupCandsAux_pairwise [] _).imp ?_
  intro a b hk hq
  obtain ⟨h1, h2, h3, h4⟩ := hq
  apply hk
  simp only [candKey, h1, h2, h3, h4]

/-- C10: in a sentence holding two or more URL tokens, every url-kind
candidate carries the triggering URL as its match but the sentence's first
URL token in its url field, and the rules-only mapping takes the record's
url from the match. -/
theorem c10_url_field_vs_match (pg : Nat) (s : String)
    (h2 : 2 ≤ (patternMatches .url s).length) :
    ∀ c ∈ sentenceCandidates pg s, c.kind = .url →
      c.url = (patternMatches .url s).head? ∧
      c.url = some ((patternMatches .url s).headD "") ∧
      (∃ m ∈ patternMatches .url s, c.«match» = jsTrim m) ∧
      (ruleItem c).url = some c.«match» := by
  intro c hc hkind
  simp only [sentenceCandidates, List.mem_flatMap, List.mem_map] at hc
  obtain ⟨k, _hk, m, hm, rfl⟩ := hc
  simp only at hkind
  subst hkind
  obtain ⟨u, rest, hur⟩ : ∃ u rest, patternMatches .url s = u :: rest := by
    cases hl : patternMatches .url s with
    | nil => rw [hl] at h2; simp at h2
    | cons u rest => exact ⟨u, rest, rfl⟩
  refine ⟨rfl, ?_, ⟨m, hm, rfl⟩, ?_⟩
  · simp [hur]
  · simp [ruleItem]

/-- The sentence and the second url-kind candidate of the C10 witness. -/
def c10Sentence : String := "See http://a.com and https://b.org/x now"

def c10Cand : Candidate :=
  { page := 1, sentence := c10Sentence, «match» := "https://b.org/x",
    kind := .url, url := some "http://a.com" }

/-- Witness for C10: a concrete sentence with two URL tokens; the second
url candidate's url field is the first token, differing from its match. -/
theorem c10_witness :
    (c10Cand.url = (patternMatches .url c10Sentence).head? ∧
     c10Cand.url = some ((patternMatches .url c10Sentence).headD "") ∧
     (∃ m ∈ patternMatches .url c10Sentence, c10Cand.«match» = jsTrim m) ∧
     (ruleItem c10Cand).url = some c10Cand.«match») ∧
    c10Cand.url ≠ some c10Cand.«match» :=
  ⟨c10_url_field_vs_match 1 c10Sentence (by decide) c10Cand (by decide) rfl,
   by decide⟩

/-! Lemmas about keep-first deduplication, sorting and the merge step. -/

theorem mem_dedupFirstAux {α : Type} [DecidableEq α] (l : List α) :
    ∀ (seen : List α) (x : α), x ∈ dedupFirstAux seen l ↔ x ∈ l ∧ x ∉ seen := by
  induction l with
  | nil => intro seen x; simp [dedupFirstAux]
  | cons a l ih =>
    intro seen x
    simp only [dedupFirstAux]
    by_cases h : a ∈ seen
    · rw [if_pos h, ih, List.mem_cons]
      constructor
      · rintro ⟨h1, h2⟩
        exact ⟨Or.inr h1, h2⟩
      · rintro ⟨h1 | h1, h2⟩
        · exact absurd (h1 ▸ h) h2
        · exact ⟨h1, h2⟩
    · rw [if_neg h]
      simp only [List.mem_cons, ih, not_or]
      constructor
      · rintro (rfl | ⟨h1, _, h3⟩)
        · exact ⟨Or.inl rfl, h⟩
        · exact ⟨Or.inr h1, h3⟩
      · rintro ⟨h1 | h1, h2⟩
        · exact Or.inl h1
        · by_cases hxa : x = a
          · exact Or.inl hxa
          · exact Or.inr ⟨h1, hxa, h2⟩

theorem mem_dedupFirst {α : Type} [DecidableEq α] (l : List α) (x : α) :
    x ∈ dedupFirst l ↔ x ∈ l := by
  simp [dedupFirst, mem_dedupFirstAux]

theorem nodup_dedupFirstAux {α : Type} [DecidableEq α] (l : List α) :
    ∀ seen : List α, (dedupFirstAux seen l).Nodup := by
  induction l with
  | nil => intro seen; simp [dedupFirstAux]
  | cons a l ih =>
    intro seen
    simp only [dedupFirstAux]
    by_cases h : a ∈ seen
    · rw [if_pos h]
      exact ih seen
    · rw [if_neg h, List.nodup_cons]
      refine ⟨fun hmem => ?_, ih _⟩
      exact ((mem_dedupFirstAux l _ a).mp hmem).2 (List.mem_cons_self _ _)

theorem nodup_dedupFirst {α : Type} [DecidableEq α] (l : List α) :
    (dedupFirst l).Nodup :=
  nodup_dedupFirstAux l []

theorem mem_sortNat (l : List Nat) (x : Nat) : x ∈ sortNat l ↔ x ∈ l :=
  (List.perm_insertionSort _ l).mem_iff

theorem sorted_sortNat (l : List Nat) : (sortNat l).Sorted (· ≤ ·) :=
  List.sorted_insertionSort _ l

theorem nodup_sortNat (l : List Nat) (h : l.Nodup) : (sortNat l).Nodup :=
  (List.perm_insertionSort _ l).nodup_iff.mpr h

/-- Two ascending duplicate-free lists of naturals with the same members are
equal. -/
theorem sorted_nodup_ext (a b : List Nat)
    (hsa : a.Sorted (· ≤ ·)) (hsb : b.Sorted (· ≤ ·))
    (hna : a.Nodup) (hnb : b.Nodup)
    (h : ∀ x, x ∈ a ↔ x ∈ b) : a = b := by
  haveI : IsAntisymm Nat (· < ·) :=
    ⟨fun x y h1 h2 => absurd h2 (Nat.lt_asymm h1)⟩
  exact List.eq_of_perm_of_sorted
    ((List.perm_ext_iff_of_nodup hna hnb).mpr h)
    (hsa.lt_of_le hna) (hsb.lt_of_le hnb)

theorem mergeInto_type (a r : ReferenceItem) : (mergeInto a r).type = a.type := rfl

theorem mergeInto_title (a r : ReferenceItem) : (mergeInto a r).title = a.title := rfl

theorem mergeInto_identifier (a r : ReferenceItem) :
    (mergeInto a r).identifier = a.identifier := rfl

theorem mergeInto_confidence (a r : ReferenceItem) :
    (mergeInto a r).confidence = max a.confidence r.confidence := rfl

theorem mem_pages_mergeInto (a r : ReferenceItem) (p : Nat) :
    p ∈ (mergeInto a r).pages ↔ p ∈ a.pages ∨ p ∈ r.pages := by
  simp [mergeInto, mem_sortNat, mem_dedupFirst]

theorem mem_snippets_mergeInto (a r : ReferenceItem) (s : String) :
    s ∈ (mergeInto a r).snippets ↔ s ∈ a.snippets ∨ s ∈ r.snippets := by
  simp [mergeInto, mem_dedupFirst]

theorem pages_mergeInto_sorted (a r : ReferenceItem) :
    (mergeInto a r).pages.Sorted (· ≤ ·) :=
  sorted_sortNat _

theorem pages_mergeInto_nodup (a r : ReferenceItem) :
    (mergeInto a r).pages.Nodup :=
  nodup_sortNat _ (nodup_dedupFirst _)

theorem normFirst_type (r : ReferenceItem) : (normFirst r).type = r.type := rfl

theorem normFirst_confidence (r : ReferenceItem) :
    (normFirst r).confidence = r.confidence := rfl

theorem mem_pages_normFirst (r : ReferenceItem) (p : Nat) :
    p ∈ (normFirst r).pages ↔ p ∈ r.pages := by
  simp [normFirst, mem_sortNat, mem_dedupFirst]

theorem mem_snippets_normFirst (r : ReferenceItem) (s : String) :
    s ∈ (normFirst r).snippets ↔ s ∈ r.snippets := by
  simp [normFirst, mem_dedupFirst]

theorem pages_normFirst_sorted (r : ReferenceItem) :
    (normFirst r).pages.Sorted (· ≤ ·) :=
  sorted_sortNat _

theorem pages_normFirst_nodup (r : ReferenceItem) :
    (normFirst r).pages.Nodup :=
  nodup_sortNat _ (nodup_dedupFirst _)

/-! Folding the merge step over a list of records sharing one key. -/

theorem foldl_mergeInto_type (l : List ReferenceItem) :
    ∀ init : ReferenceItem, (l.foldl mergeInto init).type = init.type := by
  induction l with
  | nil => intro init; rfl
  | cons r rs ih => intro init; exact ih (mergeInto init r)

theorem foldl_mergeInto_pages (l : List ReferenceItem) :
    ∀ (init : ReferenceItem) (p : Nat),
      p ∈ (l.foldl mergeInto init).pages ↔
        p ∈ init.pages ∨ ∃ y ∈ l, p ∈ y.pages := by
  induction l with
  | nil => intro init p; simp
  | cons r rs ih =>
    intro init p
    rw [List.foldl_cons, ih, mem_pages_mergeInto]
    constructor
    · rintro ((h | h) | ⟨y, hy, hp⟩)
      · exact Or.inl h
      · exact Or.inr ⟨r, List.mem_cons_self _ _, h⟩
      · exact Or.inr ⟨y, List.mem_cons_of_mem _ hy, hp⟩
    · rintro (h | ⟨y, hy, hp⟩)
      · exact Or.inl (Or.inl h)
      · rcases List.mem_cons.mp hy with rfl | hy
        · exact Or.inl (Or.inr hp)
        · exact Or.inr ⟨y, hy, hp⟩

theorem foldl_mergeInto_snippets (l : List ReferenceItem) :
    ∀ (init : ReferenceItem) (s : String),
      s ∈ (l.foldl mergeInto init).snippets ↔
        s ∈ init.snippets ∨ ∃ y ∈ l, s ∈ y.snippets := by
  induction l with
  | nil => intro init s; simp
  | cons r rs ih =>
    intro init s
    rw [List.foldl_cons, ih, mem_snippets_mergeInto]
    constructor
    · rintro ((h | h) | ⟨y, hy, hp⟩)
      · exact Or.inl h
      · exact Or.inr ⟨r, List.mem_cons_self _ _, h⟩
      · exact Or.inr ⟨y, List.mem_cons_of_mem _ hy, hp⟩
    · rintro (h | ⟨y, hy, hp⟩)
      · exact Or.inl (Or.inl h)
      · rcases List.mem_cons.mp hy with rfl | hy
        · exact Or.inl (Or.inr hp)
        · exact Or.inr ⟨y, hy, hp⟩

theorem foldl_mergeInto_conf_mem (l : List ReferenceItem) :
    ∀ init : ReferenceItem,
      (l.foldl mergeInto init).confidence = init.confidence ∨
        ∃ y ∈ l, (l.foldl mergeInto init).confidence = y.confidence := by
  induction l with
  | nil => intro init; exact Or.inl rfl
  | cons r rs ih =>
    intro init
    rw [List.foldl_cons]
    rcases ih (mergeInto init r) with h | ⟨y, hy, h⟩
    · rw [h, mergeInto_confidence]
      rcases max_choice init.confidence r.confidence with hm | hm
      · exact Or.inl hm
      · exact Or.inr ⟨r, List.mem_cons_self _ _, hm⟩
    · exact Or.inr ⟨y, List.mem_cons_of_mem _ hy, h⟩

theorem foldl_mergeInto_conf_ub (l : List ReferenceItem) :
    ∀ init : ReferenceItem,
      init.confidence ≤ (l.foldl mergeInto init).confidence ∧
        ∀ y ∈ l, y.confidence ≤ (l.foldl mergeInto init).confidence := by
  induction l with
  | nil => intro init; exact ⟨le_refl _, by simp⟩
  | cons r rs ih =>
    intro init
    rw [List.foldl_cons]
    obtain ⟨h1, h2⟩ := ih (mergeInto init r)
    have hinit : init.confidence ≤ (mergeInto init r).confidence := by
      rw [mergeInto_confidence]; exact le_max_left _ _
    have hr : r.confidence ≤ (mergeInto init r).confidence := by
      rw [mergeInto_confidence]; exact le_max_right _ _
    refine ⟨le_trans hinit h1, ?_⟩
    intro y hy
    rcases List.mem_cons.mp hy with rfl | hy
    · exact le_trans hr h1
    · exact h2 y hy

theorem foldl_mergeInto_pages_sorted (l : List ReferenceItem) :
    ∀ init : ReferenceItem,
      init.pages.Sorted (· ≤ ·) → (l.foldl mergeInto init).pages.Sorted (· ≤ ·) := by
  induction l with
  | nil => intro init h; exact h
  | cons r rs ih =>
    intro init _
    exact ih (mergeInto init r) (pages_mergeInto_sorted init r)

theorem foldl_mergeInto_pages_nodup (l : List ReferenceItem) :
    ∀ init : ReferenceItem,
      init.pages.Nodup → (l.foldl mergeInto init).pages.Nodup := by
  induction l with
  | nil => intro init h; exact h
  | cons r rs ih =>
    intro init _
    exact ih (mergeInto init r) (pages_mergeInto_nodup init r)

/-- Running the accumulator map with a single stored entry over records that
all share its key just folds the merge step. -/
theorem dedupeAux_same_key (l : List ReferenceItem) :
    ∀ (k : String) (a : ReferenceItem), (∀ r ∈ l, refKey r = k) →
      dedupeAux [(k, a)] l = [(k, l.foldl mergeInto a)] := by
  induction l with
  | nil => intro k a _; rfl
  | cons r rs ih =>
    intro k a hk
    have hr : refKey r = k := hk r (List.mem_cons_self _ _)
    simp only [dedupeAux, findVal, hr, if_pos rfl, updVal, List.foldl_cons]
    exact ih k (mergeInto a r) (fun r' h => hk r' (List.mem_cons_of_mem _ h))

/-- Deduplicating a nonempty list of records sharing one merge key yields
the single fold of the merge step over the normalized first record. -/
theorem dedupe_same_key (x : ReferenceItem) (xs : List ReferenceItem)
    (hk : ∀ r ∈ xs, refKey r = refKey x) :
    dedupe (x :: xs) = [xs.foldl mergeInto (normFirst x)] := by
  unfold dedupe
  simp only [dedupeAux, findVal, List.nil_append]
  rw [dedupeAux_same_key xs (refKey x) (normFirst x) hk]
  rfl

theorem foldl_pages_char (x : ReferenceItem) (xs : List ReferenceItem) (p : Nat) :
    p ∈ (xs.foldl mergeInto (normFirst x)).pages ↔ ∃ z ∈ x :: xs, p ∈ z.pages := by
  rw [foldl_mergeInto_pages, mem_pages_normFirst]
  constructor
  · rintro (h | ⟨z, hz, hp⟩)
    · exact ⟨x, List.mem_cons_self _ _, h⟩
    · exact ⟨z, List.mem_cons_of_mem _ hz, hp⟩
  · rintro ⟨z, hz, hp⟩
    rcases List.mem_cons.mp hz with rfl | hz
    · exact Or.inl hp
    · exact Or.inr ⟨z, hz, hp⟩

theorem foldl_snippets_char (x : ReferenceItem) (xs : List ReferenceItem) (s : String) :
    s ∈ (xs.foldl mergeInto (normFirst x)).snippets ↔
      ∃ z ∈ x :: xs, s ∈ z.snippets := by
  rw [foldl_mergeInto_snippets, mem_snippets_normFirst]
  constructor
  · rintro (h | ⟨z, hz, hp⟩)
    · exact ⟨x, List.mem_cons_self _ _, h⟩
    · exact ⟨z, List.mem_cons_of_mem _ hz, hp⟩
  · rintro ⟨z, hz, hp⟩
    rcases List.mem_cons.mp hz with rfl | hz
    · exact Or.inl hp
    · exact Or.inr ⟨z, hz, hp⟩

theorem foldl_conf_char (x : ReferenceItem) (xs : List ReferenceItem) :
    (∃ z ∈ x :: xs, (xs.foldl mergeInto (normFirst x)).confidence = z.confidence) ∧
      ∀ z ∈ x :: xs, z.confidence ≤ (xs.foldl mergeInto (normFirst x)).confidence := by
  constructor
  · rcases foldl_mergeInto_conf_mem xs (normFirst x) with h | ⟨z, hz, h⟩
    · exact ⟨x, List.mem_cons_self _ _, h.trans (normFirst_confidence x)⟩
    · exact ⟨z, List.mem_cons_of_mem _ hz, h⟩
  · obtain ⟨h1, h2⟩ := foldl_mergeInto_conf_ub xs (normFirst x)
    intro z hz
    rcases List.mem_cons.mp hz with rfl | hz
    · exact le_of_eq_of_le (normFirst_confidence z).symm h1
    · exact h2 z hz

/-- C4: for records sharing one merge key, the merged record's pages set and
snippets set are the unions over all inputs, its confidence is the maximum
over all inputs, and none of the three depends on processing order. -/
theorem c4_merge_order_independent (x y : ReferenceItem)
    (xs ys : List ReferenceItem) (hperm : List.Perm (y :: ys) (x :: xs))
    (hk : ∀ r ∈ x :: xs, refKey r = refKey x) :
    ∃ R R', dedupe (x :: xs) = [R] ∧ dedupe (y :: ys) = [R'] ∧
      R'.pages = R.pages ∧
      (∀ s, s ∈ R'.snippets ↔ s ∈ R.snippets) ∧
      R'.confidence = R.confidence ∧
      (∀ p, p ∈ R.pages ↔ ∃ z ∈ x :: xs, p ∈ z.pages) ∧
      (∀ s, s ∈ R.snippets ↔ ∃ z ∈ x :: xs, s ∈ z.snippets) ∧
      (∃ z ∈ x :: xs, R.confidence = z.confidence) ∧
      (∀ z ∈ x :: xs, z.confidence ≤ R.confidence) := by
  have hkx : ∀ r ∈ xs, refKey r = refKey x :=
    fun r h => hk r (List.mem_cons_of_mem _ h)
  have hkyall : ∀ r ∈ y :: ys, refKey r = refKey x :=
    fun r h => hk r (hperm.subset h)
  have hky : ∀ r ∈ ys, refKey r = refKey y :=
    fun r h => (hkyall r (List.mem_cons_of_mem _ h)).trans
      (hkyall y (List.mem_cons_self _ _)).symm
  refine ⟨xs.foldl mergeInto (normFirst x), ys.foldl mergeInto (normFirst y),
    dedupe_same_key x xs hkx, dedupe_same_key y ys hky, ?_, ?_, ?_,
    foldl_pages_char x xs, foldl_snippets_char x xs,
    (foldl_conf_char x xs).1, (foldl_conf_char x xs).2⟩
  · refine sorted_nodup_ext _ _
      (foldl_mergeInto_pages_sorted ys _ (pages_normFirst_sorted y))
      (foldl_mergeInto_pages_sorted xs _ (pages_normFirst_sorted x))
      (foldl_mergeInto_pages_nodup ys _ (pages_normFirst_nodup y))
      (foldl_mergeInto_pages_nodup xs _ (pages_normFirst_nodup x)) ?_
    intro p
    rw [foldl_pages_char, foldl_pages_char]
    constructor
    · rintro ⟨z, hz, hp⟩
      exact ⟨z, hperm.subset hz, hp⟩
    · rintro ⟨z, hz, hp⟩
      exact ⟨z, hperm.symm.subset hz, hp⟩
  · intro s
    rw [foldl_snippets_char, foldl_snippets_char]
    constructor
    · rintro ⟨z, hz, hp⟩
      exact ⟨z, hperm.subset hz, hp⟩
    · rintro ⟨z, hz, hp⟩
      exact ⟨z, hperm.symm.subset hz, hp⟩
  · obtain ⟨⟨zy, hzy, hey⟩, huby⟩ := foldl_conf_char y ys
    obtain ⟨⟨zx, hzx, hex⟩, hubx⟩ := foldl_conf_char x xs
    apply le_antisymm
    · rw [hey]
      exact hubx zy (hperm.subset hzy)
    · rw [hex]
      exact huby zx (hperm.symm.subset hzx)

/-- Three same-key records used in the C4 witness (identifiers differing
only in letter case, so they share the merge key). -/
def c4A : ReferenceItem :=
  { type := .Regulation, title := none, identifier := some "Reg 1", url := none,
    anchorPageHint := none, pages := [2, 1], snippets := ["s1"], confidence := 1 / 2 }

def c4B : ReferenceItem :=
  { type := .Regulation, title := none, identifier := some "reg 1", url := none,
    anchorPageHint := none, pages := [3], snippets := ["s2"], confidence := 3 / 4 }

def c4C : ReferenceItem :=
  { type := .Regulation, title := none, identifier := some "REG 1", url := none,
    anchorPageHint := none, pages := [1], snippets := ["s1", "s3"],
    confidence := 1 / 4 }

/-- Witness for C4 at three concrete same-key records and a permutation. -/
theorem c4_witness :
    ∃ R R', dedupe [c4A, c4B, c4C] = [R] ∧ dedupe [c4C, c4A, c4B] = [R'] ∧
      R'.pages = R.pages ∧
      (∀ s, s ∈ R'.snippets ↔ s ∈ R.snippets) ∧
      R'.confidence = R.confidence ∧
      (∀ p, p ∈ R.pages ↔ ∃ z ∈ [c4A, c4B, c4C], p ∈ z.pages) ∧
      (∀ s, s ∈ R.snippets ↔ ∃ z ∈ [c4A, c4B, c4C], s ∈ z.snippets) ∧
      (∃ z ∈ [c4A, c4B, c4C], R.confidence = z.confidence) ∧
      (∀ z ∈ [c4A, c4B, c4C], z.confidence ≤ R.confidence) :=
  c4_merge_order_independent c4A c4C [c4B, c4C] [c4A, c4B]
    (@List.perm_append_comm _ [c4C] [c4A, c4B]) (by decide)

/-! C3: records of different types are never merged, because the merge key
starts with the type's name and none of the type names contains a pipe. -/

theorem pipe_split_inj (u1 : List Char) (h1 : '|' ∉ u1) :
    ∀ (u2 : List Char), '|' ∉ u2 →
      ∀ v1 v2 : List Char, u1 ++ '|' :: v1 = u2 ++ '|' :: v2 → u1 = u2 := by
  induction u1 with
  | nil =>
    intro u2 h2 v1 v2 he
    cases u2 with
    | nil => rfl
    | cons c u2 =>
      exfalso
      apply h2
      have : c = '|' := (List.cons.injEq _ _ _ _ ▸ he).1.symm
      exact this ▸ List.mem_cons_self _ _
  | cons c u1 ih =>
    intro u2 h2 v1 v2 he
    cases u2 with
    | nil =>
      exfalso
      apply h1
      have : c = '|' := (List.cons.injEq _ _ _ _ ▸ he).1
      exact this ▸ List.mem_cons_self _ _
    | cons d u2 =>
      obtain ⟨hcd, htl⟩ := List.cons.injEq _ _ _ _ ▸ he
      have := ih (fun hm => h1 (List.mem_cons_of_mem _ hm)) u2
        (fun hm => h2 (List.mem_cons_of_mem _ hm)) v1 v2 htl
      rw [hcd, this]

theorem refType_str_no_pipe (t : RefType) : '|' ∉ t.str.data := by
  cases t <;> decide

theorem refType_str_inj (t1 t2 : RefType) (h : t1.str = t2.str) : t1 = t2 := by
  revert h
  cases t1 <;> cases t2 <;> decide

/-- Equal merge keys force equal types. -/
theorem refKey_type_eq (r1 r2 : ReferenceItem) (h : refKey r1 = refKey r2) :
    r1.type = r2.type := by
  apply refType_str_inj
  have hd := congrArg String.data h
  simp only [refKey, String.data_append, List.append_assoc] at hd
  have h1 : (RefType.str r1.type).data ++ '|' ::
      ((lowerStr (r1.identifier.getD "")).data ++ '|' ::
        (lowerStr (r1.title.getD "")).data) =
      (RefType.str r2.type).data ++ '|' ::
      ((lowerStr (r2.identifier.getD "")).data ++ '|' ::
        (lowerStr (r2.title.getD "")).data) := by
    simpa using hd
  have := pipe_split_inj _ (refType_str_no_pipe r1.type) _
    (refType_str_no_pipe r2.type) _ _ h1
  exact congrArg String.mk this

/-- The two records of the C3 scenario: same identifier and title, but one
is a Circular and the other an Other. -/
def c3A : ReferenceItem :=
  { type := .Circular, title := some "T", identifier := some "ID", url := none,
    anchorPageHint := none, pages := [1], snippets := ["s1"], confidence := 1 / 2 }

def c3B : ReferenceItem :=
  { type := .Other, title := some "T", identifier := some "ID", url := none,
    anchorPageHint := none, pages := [2], snippets := ["s2"], confidence := 3 / 4 }

/-- C3 counterexample: the deduplicator leaves `c3A` and `c3B` as two
records (their merge keys differ because the key includes the type), so
they are not merged into a single Circular record as the claim asserts. -/
theorem c3_counterexample :
    (dedupe [c3A, c3B]).length = 2 ∧
    c3A.identifier = c3B.identifier ∧ c3A.title = c3B.title ∧
    c3A.type = RefType.Circular ∧ c3B.type = RefType.Other := by
  refine ⟨?_, rfl, rfl, rfl, rfl⟩
  rfl

/-- C3 amended: two records of different types are never merged, whatever
their identifiers and titles; each survives with its own type (so the
first record trivially keeps its Circular classification). -/
theorem c3_types_never_merged (r1 r2 : ReferenceItem) (h : r1.type ≠ r2.type) :
    dedupe [r1, r2] = [normFirst r1, normFirst r2] ∧
    (dedupe [r1, r2]).map ReferenceItem.type = [r1.type, r2.type] := by
  have hk : ¬(refKey r1 = refKey r2) := fun he => h (refKey_type_eq r1 r2 he)
  have h2 : dedupe [r1, r2] = [normFirst r1, normFirst r2] := by
    have e2 : dedupeAux [(refKey r1, normFirst r1)] [r2] =
        [(refKey r1, normFirst r1), (refKey r2, normFirst r2)] := by
      simp only [dedupeAux, findVal]
      rw [if_neg hk]
      rfl
    show List.map Prod.snd (dedupeAux [] [r1, r2]) = _
    have e1 : dedupeAux [] [r1, r2] = dedupeAux [(refKey r1, normFirst r1)] [r2] := rfl
    rw [e1, e2]
    rfl
  exact ⟨h2, by rw [h2]; rfl⟩

/-- Witness for C3 at the concrete Circular/Other pair. -/
theorem c3_witness :
    dedupe [c3A, c3B] = [normFirst c3A, normFirst c3B] ∧
    (dedupe [c3A, c3B]).map ReferenceItem.type = [c3A.type, c3B.type] :=
  c3_types_never_merged c3A c3B (by decide)

/-! C5: the merge step's frame. JS truthiness means an empty-string url and
a zero anchorPageHint count as absent. -/

/-- The stored record of the C5 counterexample: present-but-falsy url (the
empty string) and anchorPageHint (zero). -/
def c5A : ReferenceItem :=
  { type := .Circular, title := some "T", identifier := some "ID",
    url := some "", anchorPageHint := some 0, pages := [1], snippets := ["s1"],
    confidence := 1 / 2 }

def c5B : ReferenceItem :=
  { type := .Circular, title := some "T", identifier := some "ID",
    url := some "http://x", anchorPageHint := some 7, pages := [2],
    snippets := ["s2"], confidence := 1 / 4 }

/-- C5 counterexample: a stored empty-string url and a stored zero
anchorPageHint ARE replaced during merge (JS truthiness treats them as
absent), contradicting the claim's parenthetical. -/
theorem c5_counterexample :
    (dedupe [c5A, c5B]).map (fun r => (r.url, r.anchorPageHint)) =
      [(some "http://x", some (7 : Int))] ∧
    c5A.url = some "" ∧ c5A.anchorPageHint = some 0 :=
  ⟨rfl, rfl, rfl⟩

/-- C5 amended: each merge step leaves type, title and identifier unchanged,
and leaves url (resp. anchorPageHint) unchanged except in exactly one case:
the stored value is JS-falsy (null or empty string; null or zero) and the
incoming value is JS-truthy, in which case the incoming value is adopted. -/
theorem c5_merge_frame (found r : ReferenceItem) :
    (mergeInto found r).type = found.type ∧
    (mergeInto found r).title = found.title ∧
    (mergeInto found r).identifier = found.identifier ∧
    ((mergeInto found r).url = found.url ∨
      (jsStrFalsy found.url = true ∧ jsStrFalsy r.url = false ∧
        (mergeInto found r).url = r.url)) ∧
    ((mergeInto found r).anchorPageHint = found.anchorPageHint ∨
      (jsIntFalsy found.anchorPageHint = true ∧
        jsIntFalsy r.anchorPageHint = false ∧
        (mergeInto found r).anchorPageHint = r.anchorPageHint)) := by
  refine ⟨rfl, rfl, rfl, ?_, ?_⟩
  · by_cases h1 : jsStrFalsy found.url = true
    · by_cases h2 : jsStrFalsy r.url = true
      · left
        simp [mergeInto, h1, h2]
      · right
        rw [Bool.not_eq_true] at h2
        exact ⟨h1, h2, by simp [mergeInto, h1, h2]⟩
    · left
      rw [Bool.not_eq_true] at h1
      simp [mergeInto, h1]
  · by_cases h1 : jsIntFalsy found.anchorPageHint = true
    · by_cases h2 : jsIntFalsy r.anchorPageHint = true
      · left
        simp [mergeInto, h1, h2]
      · right
        rw [Bool.not_eq_true] at h2
        exact ⟨h1, h2, by simp [mergeInto, h1, h2]⟩
    · left
      rw [Bool.not_eq_true] at h1
      simp [mergeInto, h1]

/-! C6: snippet lengths in the merged output. -/

/-- A single 201-character sentence containing a Chapter reference. -/
def c6Sentence : String := "Chapter 1 " ++ String.mk (List.replicate 191 'z')

def c6Page : PageRecord := { page := 1, text := c6Sentence, urls := [] }

set_option maxRecDepth 100000 in
/-- C6 counterexample: the rules-only pipeline stores whole sentences as
snippets and never truncates, so a 201-character sentence yields a merged
record with a snippet longer than 200 characters. -/
theorem c6_counterexample :
    ¬(∀ r ∈ (mainRulesOnly [c6Page]).2, ∀ s ∈ r.snippets, s.length ≤ 200) := by
  decide

theorem mem_updVal (k : String) (v : ReferenceItem)
    (acc : List (String × ReferenceItem)) :
    ∀ e ∈ updVal k v acc, e = (k, v) ∨ e ∈ acc := by
  induction acc with
  | nil => simp [updVal]
  | cons a as ih =>
    intro e he
    simp only [updVal] at he
    by_cases h : a.1 = k
    · rw [if_pos h] at he
      rcases List.mem_cons.mp he with rfl | he
      · exact Or.inl rfl
      · exact Or.inr (List.mem_cons_of_mem _ he)
    · rw [if_neg h] at he
      rcases List.mem_cons.mp he with rfl | he
      · exact Or.inr (List.mem_cons_self _ _)
      · rcases ih e he with h1 | h1
        · exact Or.inl h1
        · exact Or.inr (List.mem_cons_of_mem _ h1)

theorem findVal_mem (k : String) (v : ReferenceItem) :
    ∀ acc : List (String × ReferenceItem), findVal k acc = some v →
      ∃ e ∈ acc, e.2 = v := by
  intro acc
  induction acc with
  | nil => intro h; simp [findVal] at h
  | cons a as ih =>
    intro h
    simp only [findVal] at h
    by_cases h1 : a.1 = k
    · rw [if_pos h1] at h
      exact ⟨a, List.mem_cons_self _ _, Option.some_inj.mp h⟩
    · rw [if_neg h1] at h
      obtain ⟨e, he, hv⟩ := ih h
      exact ⟨e, List.mem_cons_of_mem _ he, hv⟩

/-- Snippet provenance through the accumulator loop: if every stored and
every incoming snippet satisfies `P`, so does every snippet of the output. -/
theorem dedupeAux_snippet_prov (P : String → Prop) (l : List ReferenceItem) :
    ∀ acc : List (String × ReferenceItem),
      (∀ e ∈ acc, ∀ s ∈ e.2.snippets, P s) →
      (∀ x ∈ l, ∀ s ∈ x.snippets, P s) →
      ∀ e ∈ dedupeAux acc l, ∀ s ∈ e.2.snippets, P s := by
  induction l with
  | nil =>
    intro acc hacc _ e he
    exact hacc e he
  | cons r rs ih =>
    intro acc hacc hl e he
    simp only [dedupeAux] at he
    cases hfv : findVal (refKey r) acc with
    | none =>
      rw [hfv] at he
      refine ih _ ?_ (fun x hx => hl x (List.mem_cons_of_mem _ hx)) e he
      intro e' he' s hs
      rcases List.mem_append.mp he' with h | h
      · exact hacc e' h s hs
      · have he2 : e' = (refKey r, normFirst r) := by simpa using h
        rw [he2] at hs
        exact hl r (List.mem_cons_self _ _) s ((mem_snippets_normFirst r s).mp hs)
    | some found =>
      rw [hfv] at he
      refine ih _ ?_ (fun x hx => hl x (List.mem_cons_of_mem _ hx)) e he
      intro e' he' s hs
      rcases mem_updVal _ _ _ e' he' with rfl | h
      · rcases (mem_snippets_mergeInto found r s).mp hs with h | h
        · obtain ⟨e0, he0, hv0⟩ := findVal_mem (refKey r) found acc hfv
          exact hacc e0 he0 s (hv0 ▸ h)
        · exact hl r (List.mem_cons_self _ _) s h
      · exact hacc e' h s hs

/-- Every snippet of a merged record is a snippet of some input record. -/
theorem dedupe_snippets_subset (items : List ReferenceItem) :
    ∀ r ∈ dedupe items, ∀ s ∈ r.snippets, ∃ x ∈ items, s ∈ x.snippets := by
  intro r hr s hs
  obtain ⟨e, he, hsnd⟩ := List.mem_map.mp hr
  exact dedupeAux_snippet_prov (fun s => ∃ x ∈ items, s ∈ x.snippets) items []
    (by simp) (fun x hx s hs => ⟨x, hx, hs⟩) e he s (hsnd ▸ hs)

/-- C6 amended: every snippet of every merged rules-only record is exactly
the sentence of some detected candidate (or its match text when the
sentence is empty); nothing bounds its length by 200 characters. -/
theorem c6_snippets_are_candidate_sentences (pages : List PageRecord) :
    ∀ r ∈ (mainRulesOnly pages).2, ∀ s ∈ r.snippets,
      ∃ c ∈ findCandidates pages,
        s = if c.sentence = "" then c.«match» else c.sentence := by
  intro r hr s hs
  unfold mainRulesOnly at hr
  by_cases hemp : (findCandidates pages).isEmpty
  · simp [hemp] at hr
  · simp only [hemp, Bool.false_eq_true, if_false] at hr
    obtain ⟨x, hx, hsx⟩ := dedupe_snippets_subset _ r hr s hs
    obtain ⟨c, hc, rfl⟩ := List.mem_map.mp hx
    refine ⟨c, hc, ?_⟩
    simpa [ruleItem] using hsx

/-- The single merged record of the C6 page. -/
def c6OutRecord : ReferenceItem :=
  { type := .Chapter, title := none, identifier := none, url := none,
    anchorPageHint := none, pages := [1], snippets := [c6Sentence],
    confidence := 2 / 5 }

set_option maxRecDepth 100000 in
/-- Witness for C6 at the 201-character sentence. -/
theorem c6_witness :
    ∃ c ∈ findCandidates [c6Page],
      c6Sentence = if c.sentence = "" then c.«match» else c.sentence := by
  have hout : (mainRulesOnly [c6Page]).2 = [c6OutRecord] := rfl
  refine c6_snippets_are_candidate_sentences [c6Page] c6OutRecord ?_ c6Sentence ?_
  · rw [hout]
    exact List.mem_cons_self _ _
  · show c6Sentence ∈ [c6Sentence]
    exact List.mem_cons_self _ _
